import Mathlib

/-!
Verification of the chat repository: conversation store (D1 relational and
Firestore document variants), title summarizer, and the streaming relay of
the worker, shallowly embedded from the TypeScript source.
-/

namespace ChatApp

/-! ## Title Summarizer (src/lib: generateChatTitle, both variants identical)

JavaScript strings are modelled as lists of characters.  The source is
  const cleaned = firstMessage.trim().replace(/\n/g, ' ').substring(0, 60);
  if (cleaned.length < 10) return 'New Chat';
  return cleaned.length === 60 ? cleaned + '...' : cleaned;
-/

/-- JS whitespace predicate used by String.prototype.trim. -/
def ws (c : Char) : Bool := c.isWhitespace

/-- JS s.trim(): remove whitespace from both ends. -/
def jsTrim (s : List Char) : List Char := List.rdropWhile ws (List.dropWhile ws s)

/-- The replacement performed by .replace(/\n/g, ' ') on one character. -/
def nlToSpace (c : Char) : Char := if c = '\n' then ' ' else c

/-- JS s.replace(/\n/g, ' '). -/
def replaceNewlines (s : List Char) : List Char := s.map nlToSpace

/-- The placeholder title. -/
def newChatTitle : List Char := "New Chat".data

/-- The ellipsis marker appended on truncation. -/
def ellipsis : List Char := "...".data

/-- generateChatTitle translated from src/src/lib (both the D1 and the
Firestore variant have the same body). -/
def generateChatTitle (s : List Char) : List Char :=
  let cleaned := (replaceNewlines (jsTrim s)).take 60
  if cleaned.length < 10 then newChatTitle
  else if cleaned.length = 60 then cleaned ++ ellipsis
  else cleaned

/-! Basic facts about the cleaning pipeline. -/

theorem jsTrim_head?_not_ws (s : List Char) (c : Char)
    (h : (jsTrim s).head? = some c) : ws c = false := by
  have hne : jsTrim s ≠ [] := by
    intro hnil; rw [hnil] at h; simp at h
  have hpre : jsTrim s <+: List.dropWhile ws s := List.rdropWhile_prefix ws _
  obtain ⟨t, ht⟩ := hpre
  have hdw : (List.dropWhile ws s).head? = some c := by
    rw [← ht]
    cases hjs : jsTrim s with
    | nil => exact absurd hjs hne
    | cons a l => rw [hjs] at h; simpa using h
  have hdwne : List.dropWhile ws s ≠ [] := by
    intro hnil; rw [hnil] at hdw; simp at hdw
  have := List.head_dropWhile_not ws s hdwne
  have hc : (List.dropWhile ws s).head hdwne = c := by
    rwa [List.head?_eq_head hdwne, Option.some_inj] at hdw
  rw [hc] at this
  simpa using this

theorem jsTrim_getLast?_not_ws (s : List Char) (c : Char)
    (h : (jsTrim s).getLast? = some c) : ws c = false := by
  have hne : jsTrim s ≠ [] := by
    intro hnil; rw [hnil] at h; simp at h
  have := List.rdropWhile_last_not ws (List.dropWhile ws s) hne
  have hc : (jsTrim s).getLast hne = c := by
    rwa [List.getLast?_eq_getLast _ hne, Option.some_inj] at h
  have h2 : ¬ ws ((jsTrim s).getLast hne) = true := this
  rw [hc] at h2
  simpa using h2

theorem jsTrim_eq_self (s : List Char)
    (hh : ∀ c, s.head? = some c → ws c = false)
    (hl : ∀ c, s.getLast? = some c → ws c = false) : jsTrim s = s := by
  cases s with
  | nil => rfl
  | cons a t =>
    have hha : ws a = false := hh a rfl
    have hdw : List.dropWhile ws (a :: t) = a :: t := by
      rw [List.dropWhile_cons, hha]; simp
    unfold jsTrim
    rw [hdw, List.rdropWhile_eq_self_iff]
    intro hne
    have := hl ((a :: t).getLast hne) (List.getLast?_eq_getLast _ hne)
    simpa using this

theorem ws_nlToSpace (c : Char) (h : ws c = false) : ws (nlToSpace c) = false := by
  unfold nlToSpace
  by_cases hc : c = '\n'
  · subst hc; simp [ws, Char.isWhitespace] at h
  · simp [hc, h]

theorem nlToSpace_ne_newline (c : Char) : nlToSpace c ≠ '\n' := by
  unfold nlToSpace
  by_cases hc : c = '\n'
  · simp [hc]
  · simp [hc]

theorem mem_replaceNewlines_ne_newline (c : Char) (l : List Char)
    (h : c ∈ replaceNewlines l) : c ≠ '\n' := by
  unfold replaceNewlines at h
  obtain ⟨a, _, rfl⟩ := List.mem_map.mp h
  exact nlToSpace_ne_newline a

theorem replaceNewlines_of_no_newline (l : List Char) (h : ∀ c ∈ l, c ≠ '\n') :
    replaceNewlines l = l := by
  unfold replaceNewlines
  have h2 : l.map nlToSpace = l.map id :=
    List.map_congr_left (fun c hc => by unfold nlToSpace; simp [h c hc])
  simpa using h2

theorem replaceNewlines_head? (l : List Char) :
    (replaceNewlines l).head? = l.head?.map nlToSpace := by
  unfold replaceNewlines
  exact List.head?_map nlToSpace l

theorem replaceNewlines_getLast? (l : List Char) :
    (replaceNewlines l).getLast? = l.getLast?.map nlToSpace := by
  unfold replaceNewlines
  exact List.getLast?_map nlToSpace l

theorem head?_take_sixty (l : List Char) : (l.take 60).head? = l.head? := by
  cases l with
  | nil => rfl
  | cons a t => simp [List.take_succ_cons]

/-- The cleaned text computed inside generateChatTitle. -/
def cleanedOf (s : List Char) : List Char := (replaceNewlines (jsTrim s)).take 60

theorem cleanedOf_head?_not_ws (s : List Char) (c : Char)
    (h : (cleanedOf s).head? = some c) : ws c = false := by
  unfold cleanedOf at h
  rw [head?_take_sixty, replaceNewlines_head?] at h
  cases hj : (jsTrim s).head? with
  | none => rw [hj] at h; simp at h
  | some c0 =>
    rw [hj] at h
    simp only [Option.map_some'] at h
    obtain rfl : nlToSpace c0 = c := Option.some_inj.mp h
    exact ws_nlToSpace c0 (jsTrim_head?_not_ws s c0 hj)

theorem cleanedOf_no_newline (s : List Char) (c : Char) (h : c ∈ cleanedOf s) :
    c ≠ '\n' := by
  unfold cleanedOf at h
  exact mem_replaceNewlines_ne_newline c _ (List.take_subset 60 _ h)

theorem gct_fix_newChat : generateChatTitle newChatTitle = newChatTitle := by decide

theorem gct_fix_mid (s : List Char) (h10 : 10 ≤ (cleanedOf s).length)
    (h60 : (cleanedOf s).length ≠ 60) :
    generateChatTitle (cleanedOf s) = cleanedOf s := by
  have hlt : (replaceNewlines (jsTrim s)).length < 60 := by
    by_contra hge
    push_neg at hge
    have : (cleanedOf s).length = 60 := by
      unfold cleanedOf
      rw [List.length_take]
      omega
    exact h60 this
  have hcl : cleanedOf s = replaceNewlines (jsTrim s) := by
    unfold cleanedOf
    exact List.take_of_length_le (by omega)
  have htrim : jsTrim (cleanedOf s) = cleanedOf s := by
    apply jsTrim_eq_self
    · exact fun c hc => cleanedOf_head?_not_ws s c hc
    · intro c hc
      rw [hcl, replaceNewlines_getLast?] at hc
      cases hj : (jsTrim s).getLast? with
      | none => rw [hj] at hc; simp at hc
      | some c0 =>
        rw [hj] at hc
        simp only [Option.map_some'] at hc
        obtain rfl : nlToSpace c0 = c := Option.some_inj.mp hc
        exact ws_nlToSpace c0 (jsTrim_getLast?_not_ws s c0 hj)
  have hrep : replaceNewlines (cleanedOf s) = cleanedOf s :=
    replaceNewlines_of_no_newline _ (fun c hc => cleanedOf_no_newline s c hc)
  have htake : (cleanedOf s).take 60 = cleanedOf s :=
    List.take_of_length_le (by rw [hcl]; omega)
  unfold generateChatTitle
  rw [htrim, hrep, htake]
  simp only
  rw [if_neg (by omega), if_neg h60]

theorem gct_fix_ellipsis (s : List Char) (h60 : (cleanedOf s).length = 60) :
    generateChatTitle (cleanedOf s ++ ellipsis) = cleanedOf s ++ ellipsis := by
  have hne : cleanedOf s ≠ [] := by
    intro hnil; rw [hnil] at h60; simp at h60
  have htrim : jsTrim (cleanedOf s ++ ellipsis) = cleanedOf s ++ ellipsis := by
    apply jsTrim_eq_self
    · intro c hc
      have h1 : (cleanedOf s).head? = some c := by
        obtain ⟨a, t, ha⟩ := List.exists_cons_of_ne_nil hne
        rw [ha] at hc ⊢
        simpa using hc
      exact cleanedOf_head?_not_ws s c h1
    · intro c hc
      have : (cleanedOf s ++ ellipsis).getLast? = ellipsis.getLast? :=
        List.getLast?_append_of_ne_nil (cleanedOf s) (show ellipsis ≠ [] by decide)
      rw [this] at hc
      have : c = '.' := by
        have : ellipsis.getLast? = some '.' := by decide
        rw [this] at hc
        exact (Option.some_inj.mp hc).symm
      subst this
      decide
  have hrep : replaceNewlines (cleanedOf s ++ ellipsis) = cleanedOf s ++ ellipsis := by
    apply replaceNewlines_of_no_newline
    intro c hc
    rcases List.mem_append.mp hc with h | h
    · exact cleanedOf_no_newline s c h
    · have hall : ∀ x ∈ ellipsis, x ≠ '\n' := by decide
      exact hall c h
  have htake : (cleanedOf s ++ ellipsis).take 60 = cleanedOf s := by
    rw [← h60]
    exact List.take_left _ _
  unfold generateChatTitle
  rw [htrim, hrep, htake]
  simp only
  rw [if_neg (by omega), if_pos h60]

theorem generateChatTitle_eq_cases (s : List Char) :
    generateChatTitle s = newChatTitle ∨
    (generateChatTitle s = cleanedOf s ++ ellipsis ∧ (cleanedOf s).length = 60) ∨
    (generateChatTitle s = cleanedOf s ∧ 10 ≤ (cleanedOf s).length ∧
      (cleanedOf s).length ≠ 60) := by
  unfold generateChatTitle
  by_cases h1 : (cleanedOf s).length < 10
  · left
    rw [show (replaceNewlines (jsTrim s)).take 60 = cleanedOf s from rfl]
    simp only
    rw [if_pos h1]
  · by_cases h2 : (cleanedOf s).length = 60
    · right; left
      constructor
      · rw [show (replaceNewlines (jsTrim s)).take 60 = cleanedOf s from rfl]
        simp only
        rw [if_neg h1, if_pos h2]
      · exact h2
    · right; right
      refine ⟨?_, by omega, h2⟩
      rw [show (replaceNewlines (jsTrim s)).take 60 = cleanedOf s from rfl]
      simp only
      rw [if_neg h1, if_neg h2]

theorem cleanedOf_length_le (s : List Char) : (cleanedOf s).length ≤ 60 := by
  unfold cleanedOf
  rw [List.length_take]
  omega

/-! Spec-side definitions for the title summarizer, written from the words of
the specification (trim surrounding whitespace, replace newlines by spaces,
truncate to 60 characters, placeholder under 10, ellipsis at exactly 60). -/

/-- Spec wording: remove leading whitespace. -/
def specDropLeading : List Char → List Char
  | [] => []
  | c :: t => if c.isWhitespace then specDropLeading t else c :: t

/-- Spec wording: remove trailing whitespace. -/
def specDropTrailing : List Char → List Char
  | [] => []
  | c :: t =>
    let r := specDropTrailing t
    if r = [] ∧ c.isWhitespace then [] else c :: r

/-- Spec wording: replace each newline with a space. -/
def specReplaceNl : List Char → List Char
  | [] => []
  | c :: t => (if c = '\n' then ' ' else c) :: specReplaceNl t

/-- Spec wording: truncate to the first n characters. -/
def specTruncate : Nat → List Char → List Char
  | _, [] => []
  | 0, _ :: _ => []
  | n + 1, c :: t => c :: specTruncate n t

/-- Spec wording: the cleaned text of section 4.2. -/
def specClean (s : List Char) : List Char :=
  specTruncate 60 (specReplaceNl (specDropTrailing (specDropLeading s)))

/-- The title function as the spec describes it in section 4.2. -/
def generateTitleSpec (s : List Char) : List Char :=
  let cleaned := specClean s
  if cleaned.length < 10 then "New Chat".data
  else if cleaned.length = 60 then cleaned ++ "...".data
  else cleaned

theorem specDropLeading_eq (l : List Char) :
    specDropLeading l = List.dropWhile ws l := by
  induction l with
  | nil => rfl
  | cons c t ih =>
    rw [specDropLeading, List.dropWhile_cons, ih]
    rfl

theorem specDropTrailing_cons (c : Char) (t : List Char) :
    specDropTrailing (c :: t) =
      if specDropTrailing t = [] ∧ c.isWhitespace then []
      else c :: specDropTrailing t := rfl

theorem specDropTrailing_concat (l : List Char) (x : Char) :
    specDropTrailing (l ++ [x]) =
      if ws x then specDropTrailing l else l ++ [x] := by
  induction l with
  | nil =>
    rw [List.nil_append, specDropTrailing_cons]
    by_cases hx : ws x
    · rw [if_pos ⟨rfl, hx⟩, if_pos hx]; rfl
    · rw [if_neg (fun hcon => hx hcon.2), if_neg hx]
      rfl
  | cons c t ih =>
    rw [List.cons_append, specDropTrailing_cons, ih]
    by_cases hx : ws x
    · rw [if_pos hx, if_pos hx, specDropTrailing_cons]
    · rw [if_neg hx, if_neg hx]
      have hne : ¬(t ++ [x] = [] ∧ c.isWhitespace) := by
        intro hcon
        exact absurd hcon.1 (by simp)
      rw [if_neg hne]

theorem specDropTrailing_eq (l : List Char) :
    specDropTrailing l = List.rdropWhile ws l := by
  induction l using List.reverseRecOn with
  | nil => rfl
  | append_singleton xs x ih =>
    rw [specDropTrailing_concat, List.rdropWhile_concat, ih]

theorem specReplaceNl_eq (l : List Char) : specReplaceNl l = replaceNewlines l := by
  induction l with
  | nil => rfl
  | cons c t ih =>
    rw [specReplaceNl, ih]
    rfl

theorem specTruncate_eq (n : Nat) (l : List Char) : specTruncate n l = l.take n := by
  induction l generalizing n with
  | nil => cases n <;> rfl
  | cons c t ih =>
    cases n with
    | zero => rfl
    | succ m =>
      rw [specTruncate, List.take_succ_cons, ih]

theorem specClean_eq (s : List Char) : specClean s = cleanedOf s := by
  unfold specClean cleanedOf jsTrim
  rw [specDropLeading_eq, specDropTrailing_eq, specReplaceNl_eq, specTruncate_eq]

/-- Claim C6: generateChatTitle trims surrounding whitespace, replaces
newlines with spaces and truncates to 60 characters; a cleaned result under
10 characters yields the placeholder "New Chat"; a cleaned result of exactly
60 characters gets an ellipsis marker appended; the function is pure.  It is
proved equal to an independent definition written from the words of the
specification. -/
theorem claim_C6_generateTitle_refines_spec (s : List Char) :
    generateChatTitle s = generateTitleSpec s := by
  unfold generateTitleSpec generateChatTitle
  rw [specClean_eq]
  rfl

/-- Claim C7: generateChatTitle is deterministic, idempotent, and its output
never exceeds 63 characters (60 plus the 3-character ellipsis marker). -/
theorem claim_C7_deterministic_idempotent_bounded (s : List Char) :
    generateChatTitle s = generateChatTitle s ∧
    generateChatTitle (generateChatTitle s) = generateChatTitle s ∧
    (generateChatTitle s).length ≤ 63 := by
  refine ⟨rfl, ?_, ?_⟩
  · rcases generateChatTitle_eq_cases s with h | ⟨h, h60⟩ | ⟨h, _, h60⟩
    · rw [h, gct_fix_newChat]
    · rw [h, gct_fix_ellipsis s h60]
    · rw [h, gct_fix_mid s (by rcases generateChatTitle_eq_cases s with h2 | ⟨h2, h260⟩ | ⟨h2, h210, h260⟩ <;> omega) h60]
  · rcases generateChatTitle_eq_cases s with h | ⟨h, h60⟩ | ⟨h, _, _⟩
    · rw [h]; decide
    · rw [h, List.length_append, h60]; decide
    · rw [h]
      have := cleanedOf_length_le s
      omega

/-! ## Conversation Store, D1 relational variant (src/src/lib, database functions)

SQL timestamps are modelled as natural numbers supplied by the caller; SQL
result rows as lists.  Each operation is translated statement by statement.
-/

/-- Message role. -/
inductive Role where
  | user : Role
  | assistant : Role
deriving DecidableEq

/-- A row of the chats table. -/
structure Chat where
  id : String
  user_id : String
  title : String
  created_at : Nat
  updated_at : Nat
deriving DecidableEq

/-- A row of the messages table. -/
structure Message where
  id : String
  chat_id : String
  role : Role
  content : String
  created_at : Nat
deriving DecidableEq

/-- The D1 database state. -/
structure DB where
  chats : List Chat
  messages : List Message
deriving DecidableEq

/-- getChat: SELECT * FROM chats WHERE id = ? AND user_id = ? (first row or null). -/
def getChat (db : DB) (chatId userId : String) : Option Chat :=
  db.chats.find? (fun c => decide (c.id = chatId ∧ c.user_id = userId))

/-- touchChat: UPDATE chats SET updated_at = CURRENT_TIMESTAMP WHERE id = ?. -/
def touchChat (db : DB) (chatId : String) (t : Nat) : DB :=
  { db with chats := db.chats.map fun c =>
      if c.id = chatId then { c with updated_at := t } else c }

/-- addMessage: INSERT INTO messages, then touchChat.  The messages table
declares chat_id a foreign key into chats (schema.sql), which D1 enforces:
the INSERT raises when no chat with this id exists, and no ownership column
is involved.  The row timestamp tMsg and the touch timestamp tTouch come
from two clock reads in the source. -/
def addMessage (db : DB) (chatId : String) (role : Role) (content : String)
    (msgId : String) (tMsg tTouch : Nat) : Except String (Message × DB) :=
  if db.chats.any (fun c => decide (c.id = chatId)) then
    let m : Message := ⟨msgId, chatId, role, content, tMsg⟩
    Except.ok (m, touchChat { db with messages := db.messages ++ [m] }
      chatId tTouch)
  else Except.error "FOREIGN KEY constraint failed"

/-- Ascending creation time, the ORDER BY key. -/
def msgLe (a b : Message) : Prop := a.created_at ≤ b.created_at

instance : DecidableRel msgLe := fun a b => Nat.decLe a.created_at b.created_at

instance : IsTotal Message msgLe := ⟨fun a b => Nat.le_total a.created_at b.created_at⟩

instance : IsTrans Message msgLe := ⟨fun _ _ _ hab hbc => Nat.le_trans hab hbc⟩

/-- The rows SELECTed by chat_id. -/
def chatMessagesRaw (db : DB) (chatId : String) : List Message :=
  db.messages.filter (fun m => decide (m.chat_id = chatId))

/-- getChatMessages: verify ownership via getChat, return [] when it fails,
else SELECT * FROM messages WHERE chat_id = ? ORDER BY created_at ASC. -/
def getChatMessages (db : DB) (chatId userId : String) : List Message :=
  match getChat db chatId userId with
  | none => []
  | some _ => List.insertionSort msgLe (chatMessagesRaw db chatId)

/-- updateChatTitle: UPDATE chats SET title = ?, updated_at = CURRENT_TIMESTAMP
WHERE id = ? AND user_id = ?. -/
def updateChatTitle (db : DB) (chatId userId title : String) (t : Nat) : DB :=
  { db with chats := db.chats.map fun c =>
      if c.id = chatId ∧ c.user_id = userId
        then { c with title := title, updated_at := t } else c }

/-- First statement of deleteChat: DELETE FROM messages WHERE chat_id = ?. -/
def deleteChatMessages (db : DB) (chatId : String) : DB :=
  { db with messages := db.messages.filter (fun m => decide (¬ m.chat_id = chatId)) }

/-- Second statement of deleteChat: DELETE FROM chats WHERE id = ? AND user_id = ?. -/
def deleteChatRecord (db : DB) (chatId userId : String) : DB :=
  { db with chats := db.chats.filter fun c =>
      decide (¬ (c.id = chatId ∧ c.user_id = userId)) }

/-- deleteChat: messages first, then the chat row. -/
def deleteChat (db : DB) (chatId userId : String) : DB :=
  deleteChatRecord (deleteChatMessages db chatId) chatId userId

/-! ## Conversation Store, Firestore variant (src/src/lib/user-chat.ts)

Operations that throw in the source return Except; the thrown message is the
string of the source. -/

/-- A document of the user_chats collection. -/
structure UserChat where
  id : String
  userId : String
  title : String
  createdAt : Nat
  updatedAt : Nat
deriving DecidableEq

/-- A document of the user_messages collection. -/
structure UserMessage where
  id : String
  chatId : String
  role : Role
  content : String
  createdAt : Nat
deriving DecidableEq

/-- The Firestore state. -/
structure FS where
  user_chats : List UserChat
  user_messages : List UserMessage
deriving DecidableEq

/-- The message thrown on a failed ownership check. -/
def notFoundMsg : String := "Chat not found or access denied"

/-- getUserChat: fetch the document by id, then return null unless the stored
userId matches the caller. -/
def getUserChat (fs : FS) (chatId userId : String) : Option UserChat :=
  match fs.user_chats.find? (fun c => decide (c.id = chatId)) with
  | none => none
  | some c => if c.userId = userId then some c else none

/-- Ascending creation time for user messages. -/
def umLe (a b : UserMessage) : Prop := a.createdAt ≤ b.createdAt

instance : DecidableRel umLe := fun a b => Nat.decLe a.createdAt b.createdAt

instance : IsTotal UserMessage umLe := ⟨fun a b => Nat.le_total a.createdAt b.createdAt⟩

instance : IsTrans UserMessage umLe := ⟨fun _ _ _ hab hbc => Nat.le_trans hab hbc⟩

/-- addUserMessage: verify ownership (throwing when it fails), insert the
message document, then set the chat updatedAt to the same timestamp. -/
def addUserMessage (fs : FS) (chatId userId : String) (role : Role)
    (content : String) (msgId : String) (t : Nat) :
    Except String (UserMessage × FS) :=
  match getUserChat fs chatId userId with
  | none => Except.error notFoundMsg
  | some _ =>
    let m : UserMessage := ⟨msgId, chatId, role, content, t⟩
    Except.ok (m,
      { user_chats := fs.user_chats.map
          (fun c => if c.id = chatId then { c with updatedAt := t } else c),
        user_messages := fs.user_messages ++ [m] })

/-- getUserMessages: verify ownership (throwing when it fails), then query the
messages of the chat ordered by createdAt ascending. -/
def getUserMessages (fs : FS) (chatId userId : String) :
    Except String (List UserMessage) :=
  match getUserChat fs chatId userId with
  | none => Except.error notFoundMsg
  | some _ =>
    Except.ok (List.insertionSort umLe
      (fs.user_messages.filter (fun m => decide (m.chatId = chatId))))

/-- deleteUserChat: verify ownership (throwing when it fails), delete every
message of the chat, then delete the chat document. -/
def deleteUserChat (fs : FS) (chatId userId : String) : Except String FS :=
  match getUserChat fs chatId userId with
  | none => Except.error notFoundMsg
  | some _ =>
    Except.ok
      { user_chats := fs.user_chats.filter (fun c => decide (¬ c.id = chatId)),
        user_messages :=
          fs.user_messages.filter (fun m => decide (¬ m.chatId = chatId)) }

/-- updateUserChatTitle: verify ownership (throwing when it fails), then set
title and updatedAt on the chat document. -/
def updateUserChatTitle (fs : FS) (chatId userId title : String) (t : Nat) :
    Except String FS :=
  match getUserChat fs chatId userId with
  | none => Except.error notFoundMsg
  | some _ =>
    Except.ok { fs with user_chats := fs.user_chats.map fun c =>
      if c.id = chatId
        then { c with title := title, updatedAt := t } else c }

/-! Helper lemmas about the store operations. -/

theorem find?_map_pred {α : Type} (f : α → α) (p : α → Bool) (l : List α)
    (hf : ∀ x, p (f x) = p x) : (l.map f).find? p = (l.find? p).map f := by
  induction l with
  | nil => rfl
  | cons a t ih =>
    by_cases hp : p a
    · rw [List.map_cons, List.find?_cons_of_pos _ (by rw [hf]; exact hp),
        List.find?_cons_of_pos _ hp, Option.map_some']
    · rw [List.map_cons, List.find?_cons_of_neg _ (by rw [hf]; simpa using hp),
        List.find?_cons_of_neg _ (by simpa using hp), ih]

theorem getChat_some_props (db : DB) (chatId userId : String) (c : Chat)
    (h : getChat db chatId userId = some c) :
    c.id = chatId ∧ c.user_id = userId ∧ c ∈ db.chats := by
  unfold getChat at h
  have h1 := List.find?_some h
  have h2 := List.mem_of_find?_eq_some h
  simp only [decide_eq_true_eq] at h1
  exact ⟨h1.1, h1.2, h2⟩

theorem getChat_eq_none (db : DB) (chatId userId : String)
    (h : ∀ c ∈ db.chats, ¬ (c.id = chatId ∧ c.user_id = userId)) :
    getChat db chatId userId = none := by
  unfold getChat
  rw [List.find?_eq_none]
  intro c hc
  simpa using h c hc

theorem getChat_touchChat (db : DB) (chatId userId : String) (t : Nat) (c : Chat)
    (h : getChat db chatId userId = some c) :
    getChat (touchChat db chatId t) chatId userId =
      some { c with updated_at := t } := by
  have hid : c.id = chatId := (getChat_some_props db chatId userId c h).1
  unfold getChat at h
  unfold getChat touchChat
  rw [find?_map_pred _ _ _ (fun x => by by_cases hx : x.id = chatId <;> simp [hx]), h]
  simp [hid]

theorem addMessage_ok (db : DB) (chatId : String) (role : Role)
    (content msgId : String) (tMsg tTouch : Nat)
    (h : ∃ c ∈ db.chats, c.id = chatId) :
    addMessage db chatId role content msgId tMsg tTouch =
      Except.ok (⟨msgId, chatId, role, content, tMsg⟩,
        touchChat { db with messages := db.messages ++
          [⟨msgId, chatId, role, content, tMsg⟩] } chatId tTouch) := by
  unfold addMessage
  rw [if_pos (by
    rw [List.any_eq_true]
    obtain ⟨c, hc, hid⟩ := h
    exact ⟨c, hc, by simpa using hid⟩)]

theorem addMessage_err (db : DB) (chatId : String) (role : Role)
    (content msgId : String) (tMsg tTouch : Nat)
    (h : ∀ c ∈ db.chats, ¬ c.id = chatId) :
    addMessage db chatId role content msgId tMsg tTouch =
      Except.error "FOREIGN KEY constraint failed" := by
  unfold addMessage
  rw [if_neg (by
    rw [List.any_eq_true]
    rintro ⟨c, hc, hid⟩
    exact h c hc (by simpa using hid))]

theorem getUserChat_some_props (fs : FS) (chatId userId : String) (c : UserChat)
    (h : getUserChat fs chatId userId = some c) :
    fs.user_chats.find? (fun x => decide (x.id = chatId)) = some c ∧
      c.id = chatId ∧ c.userId = userId := by
  unfold getUserChat at h
  cases hf : fs.user_chats.find? (fun x => decide (x.id = chatId)) with
  | none => rw [hf] at h; exact absurd h (by simp)
  | some c0 =>
    rw [hf] at h
    have h2 : (if c0.userId = userId then some c0 else none) = some c := h
    by_cases hu : c0.userId = userId
    · rw [if_pos hu, Option.some_inj] at h2
      subst h2
      exact ⟨rfl, by simpa using List.find?_some hf, hu⟩
    · rw [if_neg hu] at h2
      exact absurd h2 (by simp)

theorem getUserChat_none_of_not_owned (fs : FS) (chatId userId : String)
    (h : ∀ c ∈ fs.user_chats, c.id = chatId → ¬ c.userId = userId) :
    getUserChat fs chatId userId = none := by
  unfold getUserChat
  cases hf : fs.user_chats.find? (fun c => decide (c.id = chatId)) with
  | none => rfl
  | some c0 =>
    have hid : c0.id = chatId := by simpa using List.find?_some hf
    have hmem := List.mem_of_find?_eq_some hf
    show (if c0.userId = userId then some c0 else none) = none
    rw [if_neg (h c0 hmem hid)]

theorem find?_userchats_touch (l : List UserChat) (chatId : String) (t : Nat)
    (c : UserChat) (h : l.find? (fun x => decide (x.id = chatId)) = some c) :
    (l.map fun x => if x.id = chatId then { x with updatedAt := t } else x).find?
        (fun x => decide (x.id = chatId)) = some { c with updatedAt := t } := by
  rw [find?_map_pred _ _ _ (fun x => by by_cases hx : x.id = chatId <;> simp [hx]), h]
  have hc : c.id = chatId := by simpa using List.find?_some h
  simp [hc]

theorem addUserMessage_ok (fs : FS) (chatId userId : String) (role : Role)
    (content msgId : String) (t : Nat) (ch : UserChat)
    (h : getUserChat fs chatId userId = some ch) :
    addUserMessage fs chatId userId role content msgId t =
      Except.ok (⟨msgId, chatId, role, content, t⟩,
        ⟨fs.user_chats.map (fun c =>
            if c.id = chatId then { c with updatedAt := t } else c),
          fs.user_messages ++ [⟨msgId, chatId, role, content, t⟩]⟩) := by
  unfold addUserMessage
  rw [h]

theorem getUserChat_touched (fs : FS) (chatId userId : String) (t : Nat)
    (M : List UserMessage) (ch : UserChat)
    (h : getUserChat fs chatId userId = some ch) :
    getUserChat
      (⟨fs.user_chats.map (fun c =>
          if c.id = chatId then { c with updatedAt := t } else c), M⟩ : FS)
      chatId userId = some { ch with updatedAt := t } := by
  obtain ⟨hfind, hid, huid⟩ := getUserChat_some_props fs chatId userId ch h
  unfold getUserChat
  rw [show (FS.mk
      (fs.user_chats.map fun c =>
        if c.id = chatId then { c with updatedAt := t } else c) M).user_chats
    = fs.user_chats.map (fun c =>
        if c.id = chatId then { c with updatedAt := t } else c) from rfl]
  rw [find?_userchats_touch fs.user_chats chatId t ch hfind]
  simp [huid]

theorem updateChatTitle_no_match (db : DB) (chatId userId title : String) (t : Nat)
    (h : ∀ c ∈ db.chats, ¬ (c.id = chatId ∧ c.user_id = userId)) :
    updateChatTitle db chatId userId title t = db := by
  unfold updateChatTitle
  have h3 : ∀ c ∈ db.chats,
      (if c.id = chatId ∧ c.user_id = userId
        then { c with title := title, updated_at := t } else c) = id c :=
    fun c hc => by simp [h c hc]
  have h2 : (db.chats.map fun c =>
      if c.id = chatId ∧ c.user_id = userId
        then { c with title := title, updated_at := t } else c) = db.chats := by
    rw [List.map_congr_left h3, List.map_id]
  rw [h2]

/-! ## Concrete stores used by counterexamples and witnesses. -/

/-- An empty D1 store. -/
def dbEmpty : DB := ⟨[], []⟩

/-- A D1 store whose single chat c1 is owned by alice and holds one message. -/
def dbAlice : DB :=
  ⟨[⟨"c1", "alice", "T", 0, 0⟩], [⟨"m1", "c1", Role.user, "hello", 1⟩]⟩

/-- A Firestore store whose single chat c1 is owned by alice. -/
def fsAlice : FS := ⟨[⟨"c1", "alice", "T", 0, 0⟩], []⟩

/-- Claim C3, counterexample: with chat c1 owned by alice, the D1 addMessage
run on behalf of bob — for whom getChat returns none, since he does not own
the chat — still inserts the message and touches the chat: the operation
takes no owner argument and performs no ownership validation (only the
chat_id foreign key is checked). -/
theorem claim_C3_counterexample :
    getChat dbAlice "c1" "bob" = none ∧
    addMessage dbAlice "c1" Role.user "hi" "m2" 2 3 =
      Except.ok (⟨"m2", "c1", Role.user, "hi", 2⟩,
        ⟨[⟨"c1", "alice", "T", 0, 3⟩],
          [⟨"m1", "c1", Role.user, "hello", 1⟩,
           ⟨"m2", "c1", Role.user, "hi", 2⟩]⟩) := by
  exact ⟨rfl, rfl⟩

/-- Claim C3 (amended): the Firestore addUserMessage first validates that the
chat exists and is owned by the caller (erroring otherwise), then inserts the
message, then updates the chat updatedAt; the D1 addMessage validates only
that the chat exists (through the chat_id foreign key, raising on a missing
chat) and performs no ownership validation — whenever the chat exists it
inserts the message and touches the chat timestamp regardless of the caller,
its HTTP callers having validated ownership via getChat beforehand. -/
theorem claim_C3_append_validates_inserts_touches
    (fs : FS) (db : DB) (chatId userId : String) (role : Role)
    (content msgId : String) (t tMsg tTouch : Nat) (ch : UserChat)
    (hch : getUserChat fs chatId userId = some ch) :
    (∀ fs2, getUserChat fs2 chatId userId = none →
      addUserMessage fs2 chatId userId role content msgId t =
        Except.error notFoundMsg) ∧
    (∃ fs2, addUserMessage fs chatId userId role content msgId t =
        Except.ok (⟨msgId, chatId, role, content, t⟩, fs2) ∧
      fs2.user_messages = fs.user_messages ++ [⟨msgId, chatId, role, content, t⟩] ∧
      getUserChat fs2 chatId userId = some { ch with updatedAt := t }) ∧
    (∀ db2 : DB, (∀ c ∈ db2.chats, ¬ c.id = chatId) →
      addMessage db2 chatId role content msgId tMsg tTouch =
        Except.error "FOREIGN KEY constraint failed") ∧
    ((∃ c ∈ db.chats, c.id = chatId) →
      ∃ dbOut, addMessage db chatId role content msgId tMsg tTouch =
          Except.ok (⟨msgId, chatId, role, content, tMsg⟩, dbOut) ∧
        dbOut.messages = db.messages ++ [⟨msgId, chatId, role, content, tMsg⟩]) := by
  refine ⟨?_, ?_, ?_, ?_⟩
  · intro fs2 h
    unfold addUserMessage
    rw [h]
  · exact ⟨_, addUserMessage_ok fs chatId userId role content msgId t ch hch,
      rfl, getUserChat_touched fs chatId userId t _ ch hch⟩
  · intro db2 h
    exact addMessage_err db2 chatId role content msgId tMsg tTouch h
  · intro hex
    exact ⟨_, addMessage_ok db chatId role content msgId tMsg tTouch hex, rfl⟩

/-- Claim C3, witness of the amended theorem at a concrete store. -/
theorem claim_C3_witness :
    (∀ fs2, getUserChat fs2 "c1" "alice" = none →
      addUserMessage fs2 "c1" "alice" Role.user "hi" "m1" 5 =
        Except.error notFoundMsg) ∧
    (∃ fs2, addUserMessage fsAlice "c1" "alice" Role.user "hi" "m1" 5 =
        Except.ok (⟨"m1", "c1", Role.user, "hi", 5⟩, fs2) ∧
      fs2.user_messages = fsAlice.user_messages ++
        [⟨"m1", "c1", Role.user, "hi", 5⟩] ∧
      getUserChat fs2 "c1" "alice" =
        some { (⟨"c1", "alice", "T", 0, 0⟩ : UserChat) with updatedAt := 5 }) ∧
    (∀ db2 : DB, (∀ c ∈ db2.chats, ¬ c.id = "c1") →
      addMessage db2 "c1" Role.user "hi" "m1" 3 4 =
        Except.error "FOREIGN KEY constraint failed") ∧
    ((∃ c ∈ dbAlice.chats, c.id = "c1") →
      ∃ dbOut, addMessage dbAlice "c1" Role.user "hi" "m1" 3 4 =
          Except.ok (⟨"m1", "c1", Role.user, "hi", 3⟩, dbOut) ∧
        dbOut.messages = dbAlice.messages ++ [⟨"m1", "c1", Role.user, "hi", 3⟩]) :=
  claim_C3_append_validates_inserts_touches fsAlice dbAlice "c1" "alice"
    Role.user "hi" "m1" 5 3 4 ⟨"c1", "alice", "T", 0, 0⟩ (by decide)

/-- Claim C4, counterexample: deleteChat invoked by bob on the chat c1 owned
by alice deletes the messages of the chat (while keeping the chat row), but
invoked on the nonexistent chat id c9 it changes nothing, so the non-owner
run is observably different from the nonexistent-chat run. -/
theorem claim_C4_counterexample :
    ¬ deleteChat dbAlice "c1" "bob" = deleteChat dbAlice "c9" "bob" ∧
    (deleteChat dbAlice "c1" "bob").messages = [] ∧
    deleteChat dbAlice "c9" "bob" = dbAlice := by decide

/-- Claim C4 (amended): for a chat owned by A and a caller B distinct from A,
getChat and getUserChat return nothing (not an error) exactly as for a
missing chat, and every store operation except the D1 deleteChat — which
deletes the messages of a non-owned chat — behaves identically to the run on
a chat id that does not exist. -/
theorem claim_C4_non_owner_behaves_as_missing
    (db : DB) (fs : FS) (cid cidNo A B : String) (hBA : ¬ B = A)
    (hOwn : ∀ c ∈ db.chats, c.id = cid → c.user_id = A)
    (hNo : ∀ c ∈ db.chats, ¬ c.id = cidNo)
    (hOwnF : ∀ c ∈ fs.user_chats, c.id = cid → c.userId = A)
    (hNoF : ∀ c ∈ fs.user_chats, ¬ c.id = cidNo) :
    (getChat db cid B = none ∧ getChat db cidNo B = none) ∧
    getChatMessages db cid B = getChatMessages db cidNo B ∧
    (∀ title t, updateChatTitle db cid B title t = db ∧
      updateChatTitle db cidNo B title t = db) ∧
    (getUserChat fs cid B = none ∧ getUserChat fs cidNo B = none) ∧
    getUserMessages fs cid B = getUserMessages fs cidNo B ∧
    (∀ role content msgId t,
      addUserMessage fs cid B role content msgId t =
        addUserMessage fs cidNo B role content msgId t) ∧
    deleteUserChat fs cid B = deleteUserChat fs cidNo B ∧
    (∀ title t, updateUserChatTitle fs cid B title t =
      updateUserChatTitle fs cidNo B title t) := by
  have hg1 : getChat db cid B = none := by
    apply getChat_eq_none
    intro c hc hcon
    exact hBA (by rw [← hcon.2, hOwn c hc hcon.1])
  have hg2 : getChat db cidNo B = none := by
    apply getChat_eq_none
    intro c hc hcon
    exact hNo c hc hcon.1
  have hu1 : getUserChat fs cid B = none := by
    apply getUserChat_none_of_not_owned
    intro c hc hid hub
    exact hBA (by rw [← hub, hOwnF c hc hid])
  have hu2 : getUserChat fs cidNo B = none := by
    apply getUserChat_none_of_not_owned
    intro c hc hid
    exact absurd hid (hNoF c hc)
  refine ⟨⟨hg1, hg2⟩, ?_, ?_, ⟨hu1, hu2⟩, ?_, ?_, ?_, ?_⟩
  · unfold getChatMessages
    rw [hg1, hg2]
  · intro title t
    constructor
    · apply updateChatTitle_no_match
      intro c hc hcon
      exact hBA (by rw [← hcon.2, hOwn c hc hcon.1])
    · apply updateChatTitle_no_match
      intro c hc hcon
      exact hNo c hc hcon.1
  · unfold getUserMessages
    rw [hu1, hu2]
  · intro role content msgId t
    unfold addUserMessage
    rw [hu1, hu2]
  · unfold deleteUserChat
    rw [hu1, hu2]
  · intro title t
    unfold updateUserChatTitle
    rw [hu1, hu2]

/-- Claim C4, witness of the amended theorem at a concrete store. -/
theorem claim_C4_witness :
    getChat dbAlice "c1" "bob" = none ∧
    getChatMessages dbAlice "c1" "bob" = getChatMessages dbAlice "c9" "bob" ∧
    updateChatTitle dbAlice "c1" "bob" "x" 7 = dbAlice ∧
    getUserChat fsAlice "c1" "bob" = none ∧
    deleteUserChat fsAlice "c1" "bob" = deleteUserChat fsAlice "c9" "bob" := by
  have h := claim_C4_non_owner_behaves_as_missing dbAlice fsAlice "c1" "c9"
    "alice" "bob" (by decide) (by decide) (by decide) (by decide) (by decide)
  exact ⟨h.1.1, h.2.1, (h.2.2.1 "x" 7).1, h.2.2.2.1.1, h.2.2.2.2.2.2.1⟩

/-- Claim C5, counterexample: the Firestore getUserMessages invoked by a
non-owner throws the access-denied error instead of returning an empty
sequence. -/
theorem claim_C5_counterexample :
    getUserMessages fsAlice "c1" "bob" = Except.error notFoundMsg ∧
    ¬ getUserMessages fsAlice "c1" "bob" = Except.ok [] := by
  constructor
  · rfl
  · intro h
    exact Except.noConfusion h

/-- Claim C5 (amended): the D1 getChatMessages returns the messages of the
chat ascending by creation time and returns an empty sequence — not an
error — when the chat is missing or not owned; the Firestore getUserMessages
also returns the messages ascending by creation time, but throws the
access-denied error instead of returning empty when the chat is missing or
not owned. -/
theorem claim_C5_listMessages_order_and_missing
    (db : DB) (fs : FS) (cid uid : String) :
    List.Sorted msgLe (getChatMessages db cid uid) ∧
    (getChat db cid uid = none → getChatMessages db cid uid = []) ∧
    (∀ c, getChat db cid uid = some c →
      (getChatMessages db cid uid).Perm (chatMessagesRaw db cid)) ∧
    (getUserChat fs cid uid = none →
      getUserMessages fs cid uid = Except.error notFoundMsg) ∧
    (∀ c, getUserChat fs cid uid = some c →
      ∃ l, getUserMessages fs cid uid = Except.ok l ∧ List.Sorted umLe l ∧
        l.Perm (fs.user_messages.filter (fun m => decide (m.chatId = cid)))) := by
  refine ⟨?_, ?_, ?_, ?_, ?_⟩
  · unfold getChatMessages
    cases getChat db cid uid with
    | none => exact List.sorted_nil
    | some c => exact List.sorted_insertionSort msgLe _
  · intro h
    unfold getChatMessages
    rw [h]
  · intro c h
    unfold getChatMessages
    rw [h]
    exact List.perm_insertionSort msgLe _
  · intro h
    unfold getUserMessages
    rw [h]
  · intro c h
    unfold getUserMessages
    rw [h]
    exact ⟨_, rfl, List.sorted_insertionSort umLe _, List.perm_insertionSort umLe _⟩

/-- Claim C8: after an append, the chat timestamp equals the touch timestamp
and is greater than or equal to the creation time of every message of the
chat, in particular the most recent one; two sequential appends under a
monotone clock leave the timestamp non-decreasing.  This holds for both
message-adding store operations: the D1 addMessage with touchChat, and the
Firestore addUserMessage. -/
theorem claim_C8_updated_at_invariant
    (db : DB) (fs : FS) (cid uid : String) (r1 r2 : Role)
    (content1 content2 id1 id2 idF1 idF2 : String)
    (c : Chat) (ch : UserChat) (t1 t1' t2 t2' tF1 tF2 : Nat)
    (hc : getChat db cid uid = some c)
    (hchF : getUserChat fs cid uid = some ch)
    (h1 : t1 ≤ t1') (h2 : t1' ≤ t2) (h3 : t2 ≤ t2')
    (hold : ∀ m ∈ db.messages, m.chat_id = cid → m.created_at ≤ t1)
    (hF : tF1 ≤ tF2)
    (holdF : ∀ m ∈ fs.user_messages, m.chatId = cid → m.createdAt ≤ tF1) :
    (∃ db1 db2 c1 c2,
      addMessage db cid r1 content1 id1 t1 t1' =
        Except.ok (⟨id1, cid, r1, content1, t1⟩, db1) ∧
      addMessage db1 cid r2 content2 id2 t2 t2' =
        Except.ok (⟨id2, cid, r2, content2, t2⟩, db2) ∧
      getChat db1 cid uid = some c1 ∧ getChat db2 cid uid = some c2 ∧
      c1.updated_at = t1' ∧ c2.updated_at = t2' ∧
      c1.updated_at ≤ c2.updated_at ∧
      (∀ m ∈ db1.messages, m.chat_id = cid → m.created_at ≤ c1.updated_at) ∧
      (∀ m ∈ db2.messages, m.chat_id = cid → m.created_at ≤ c2.updated_at)) ∧
    (∃ fs1 fs2,
      addUserMessage fs cid uid r1 content1 idF1 tF1 =
        Except.ok (⟨idF1, cid, r1, content1, tF1⟩, fs1) ∧
      addUserMessage fs1 cid uid r2 content2 idF2 tF2 =
        Except.ok (⟨idF2, cid, r2, content2, tF2⟩, fs2) ∧
      getUserChat fs1 cid uid = some { ch with updatedAt := tF1 } ∧
      getUserChat fs2 cid uid = some { ch with updatedAt := tF2 } ∧
      tF1 ≤ tF2 ∧
      (∀ m ∈ fs1.user_messages, m.chatId = cid → m.createdAt ≤ tF1) ∧
      (∀ m ∈ fs2.user_messages, m.chatId = cid → m.createdAt ≤ tF2)) := by
  constructor
  · have hp := getChat_some_props db cid uid c hc
    have hex1 : ∃ x ∈ db.chats, x.id = cid := ⟨c, hp.2.2, hp.1⟩
    have hadd1 := addMessage_ok db cid r1 content1 id1 t1 t1' hex1
    have hg1 : getChat (touchChat { db with messages := db.messages ++
          [⟨id1, cid, r1, content1, t1⟩] } cid t1') cid uid =
        some { c with updated_at := t1' } :=
      getChat_touchChat { db with messages := db.messages ++
        [⟨id1, cid, r1, content1, t1⟩] } cid uid t1' c hc
    have hp1 := getChat_some_props _ cid uid _ hg1
    have hex2 : ∃ x ∈ (touchChat { db with messages := db.messages ++
        [⟨id1, cid, r1, content1, t1⟩] } cid t1').chats, x.id = cid :=
      ⟨_, hp1.2.2, hp1.1⟩
    have hadd2 := addMessage_ok _ cid r2 content2 id2 t2 t2' hex2
    have hg2 : getChat (touchChat { (touchChat { db with messages :=
          db.messages ++ [⟨id1, cid, r1, content1, t1⟩] } cid t1') with
          messages := (touchChat { db with messages := db.messages ++
            [⟨id1, cid, r1, content1, t1⟩] } cid t1').messages ++
            [⟨id2, cid, r2, content2, t2⟩] } cid t2') cid uid =
        some { { c with updated_at := t1' } with updated_at := t2' } :=
      getChat_touchChat _ cid uid t2' _ hg1
    refine ⟨_, _, _, _, hadd1, hadd2, hg1, hg2, rfl, rfl, ?_, ?_, ?_⟩
    · show t1' ≤ t2'
      omega
    · intro m hm hcid
      show m.created_at ≤ t1'
      have hm2 : m ∈ db.messages ++ [⟨id1, cid, r1, content1, t1⟩] := hm
      rcases List.mem_append.mp hm2 with h | h
      · exact le_trans (hold m h hcid) h1
      · rcases List.mem_singleton.mp h with rfl
        show t1 ≤ t1'
        omega
    · intro m hm hcid
      show m.created_at ≤ t2'
      have hm2 : m ∈ (db.messages ++ [⟨id1, cid, r1, content1, t1⟩]) ++
          [⟨id2, cid, r2, content2, t2⟩] := hm
      rcases List.mem_append.mp hm2 with h | h
      · rcases List.mem_append.mp h with h2m | h2m
        · have := hold m h2m hcid
          omega
        · rcases List.mem_singleton.mp h2m with rfl
          show t1 ≤ t2'
          omega
      · rcases List.mem_singleton.mp h with rfl
        show t2 ≤ t2'
        omega
  · have haddF1 := addUserMessage_ok fs cid uid r1 content1 idF1 tF1 ch hchF
    have hgF1 : getUserChat
        (⟨fs.user_chats.map (fun x =>
            if x.id = cid then { x with updatedAt := tF1 } else x),
          fs.user_messages ++ [⟨idF1, cid, r1, content1, tF1⟩]⟩ : FS)
        cid uid = some { ch with updatedAt := tF1 } :=
      getUserChat_touched fs cid uid tF1 _ ch hchF
    have haddF2 := addUserMessage_ok _ cid uid r2 content2 idF2 tF2 _ hgF1
    have hgF2 := getUserChat_touched
      (⟨fs.user_chats.map (fun x =>
          if x.id = cid then { x with updatedAt := tF1 } else x),
        fs.user_messages ++ [⟨idF1, cid, r1, content1, tF1⟩]⟩ : FS)
      cid uid tF2
      ((⟨fs.user_chats.map (fun x =>
          if x.id = cid then { x with updatedAt := tF1 } else x),
        fs.user_messages ++ [⟨idF1, cid, r1, content1, tF1⟩]⟩ : FS).user_messages
        ++ [⟨idF2, cid, r2, content2, tF2⟩])
      { ch with updatedAt := tF1 } hgF1
    refine ⟨_, _, haddF1, haddF2, hgF1, hgF2, hF, ?_, ?_⟩
    · intro m hm hcid
      have hm2 : m ∈ fs.user_messages ++ [⟨idF1, cid, r1, content1, tF1⟩] := hm
      rcases List.mem_append.mp hm2 with h | h
      · exact holdF m h hcid
      · rcases List.mem_singleton.mp h with rfl
        exact le_refl tF1
    · intro m hm hcid
      have hm2 : m ∈ (fs.user_messages ++ [⟨idF1, cid, r1, content1, tF1⟩]) ++
          [⟨idF2, cid, r2, content2, tF2⟩] := hm
      rcases List.mem_append.mp hm2 with h | h
      · rcases List.mem_append.mp h with h2m | h2m
        · exact le_trans (holdF m h2m hcid) hF
        · rcases List.mem_singleton.mp h2m with rfl
          exact hF
      · rcases List.mem_singleton.mp h with rfl
        exact le_refl tF2

/-- Claim C8, witness at concrete stores with a monotone clock. -/
theorem claim_C8_witness :
    (∃ db1 db2 c1 c2,
      addMessage dbAlice "c1" Role.user "q" "m2" 2 3 =
        Except.ok (⟨"m2", "c1", Role.user, "q", 2⟩, db1) ∧
      addMessage db1 "c1" Role.assistant "a" "m3" 4 5 =
        Except.ok (⟨"m3", "c1", Role.assistant, "a", 4⟩, db2) ∧
      getChat db1 "c1" "alice" = some c1 ∧
      getChat db2 "c1" "alice" = some c2 ∧
      c1.updated_at = 3 ∧ c2.updated_at = 5 ∧
      c1.updated_at ≤ c2.updated_at ∧
      (∀ m ∈ db1.messages, m.chat_id = "c1" → m.created_at ≤ c1.updated_at) ∧
      (∀ m ∈ db2.messages, m.chat_id = "c1" → m.created_at ≤ c2.updated_at)) ∧
    (∃ fs1 fs2,
      addUserMessage fsAlice "c1" "alice" Role.user "q" "f1" 1 =
        Except.ok (⟨"f1", "c1", Role.user, "q", 1⟩, fs1) ∧
      addUserMessage fs1 "c1" "alice" Role.assistant "a" "f2" 2 =
        Except.ok (⟨"f2", "c1", Role.assistant, "a", 2⟩, fs2) ∧
      getUserChat fs1 "c1" "alice" =
        some { (⟨"c1", "alice", "T", 0, 0⟩ : UserChat) with updatedAt := 1 } ∧
      getUserChat fs2 "c1" "alice" =
        some { (⟨"c1", "alice", "T", 0, 0⟩ : UserChat) with updatedAt := 2 } ∧
      (1 : Nat) ≤ 2 ∧
      (∀ m ∈ fs1.user_messages, m.chatId = "c1" → m.createdAt ≤ 1) ∧
      (∀ m ∈ fs2.user_messages, m.chatId = "c1" → m.createdAt ≤ 2)) :=
  claim_C8_updated_at_invariant dbAlice fsAlice "c1" "alice" Role.user
    Role.assistant "q" "a" "m2" "m3" "f1" "f2" ⟨"c1", "alice", "T", 0, 0⟩
    ⟨"c1", "alice", "T", 0, 0⟩ 2 3 4 5 1 2 (by decide) (by decide) (by decide)
    (by decide) (by decide) (by decide) (by decide) (by decide)

/-- Claim C9, counterexample: in the Firestore variant, after a completed
deletion a subsequent listMessages on the deleted chat id reports the
not-found error instead of returning an empty sequence. -/
theorem claim_C9_counterexample :
    deleteUserChat fsAlice "c1" "alice" = Except.ok ⟨[], []⟩ ∧
    getUserMessages (⟨[], []⟩ : FS) "c1" "alice" =
      Except.error notFoundMsg := by
  constructor
  · rfl
  · rfl

/-- Claim C9 (amended): both variants delete the chat messages before the
chat record, and no message of the chat survives a completed deletion; the
D1 getChatMessages on the deleted chat id then returns the empty sequence
for every caller, while the Firestore getUserMessages reports the not-found
error instead of returning empty. -/
theorem claim_C9_delete_cascades
    (db : DB) (cid uid : String) (c : Chat)
    (hc : getChat db cid uid = some c) :
    deleteChat db cid uid =
      deleteChatRecord (deleteChatMessages db cid) cid uid ∧
    (∀ m ∈ (deleteChatMessages db cid).messages, ¬ m.chat_id = cid) ∧
    getChat (deleteChatMessages db cid) cid uid = some c ∧
    (∀ m ∈ (deleteChat db cid uid).messages, ¬ m.chat_id = cid) ∧
    (∀ uid2, getChatMessages (deleteChat db cid uid) cid uid2 = []) ∧
    (∀ (fs : FS) (ch : UserChat), getUserChat fs cid uid = some ch →
      ∃ fs2, deleteUserChat fs cid uid = Except.ok fs2 ∧
        (∀ m ∈ fs2.user_messages, ¬ m.chatId = cid) ∧
        getUserMessages fs2 cid uid = Except.error notFoundMsg) := by
  have hmem : ∀ m ∈ (deleteChat db cid uid).messages, ¬ m.chat_id = cid := by
    intro m hm
    have h2 : m ∈ db.messages.filter (fun m => decide (¬ m.chat_id = cid)) := hm
    simpa using List.of_mem_filter h2
  have hraw : chatMessagesRaw (deleteChat db cid uid) cid = [] := by
    unfold chatMessagesRaw
    rw [List.filter_eq_nil_iff]
    intro m hm
    simpa using hmem m hm
  refine ⟨rfl, ?_, hc, hmem, ?_, ?_⟩
  · intro m hm
    have h2 : m ∈ db.messages.filter (fun m => decide (¬ m.chat_id = cid)) := hm
    simpa using List.of_mem_filter h2
  · intro uid2
    unfold getChatMessages
    cases hgc : getChat (deleteChat db cid uid) cid uid2 with
    | none => rfl
    | some c2 => rw [hraw]; rfl
  · intro fs ch hch
    refine ⟨⟨fs.user_chats.filter (fun c => decide (¬ c.id = cid)),
      fs.user_messages.filter (fun m => decide (¬ m.chatId = cid))⟩, ?_, ?_, ?_⟩
    · unfold deleteUserChat
      rw [hch]
    · intro m hm
      have h2 : m ∈ fs.user_messages.filter
          (fun m => decide (¬ m.chatId = cid)) := hm
      simpa using List.of_mem_filter h2
    · have hnone : getUserChat
          (⟨fs.user_chats.filter (fun c => decide (¬ c.id = cid)),
            fs.user_messages.filter (fun m => decide (¬ m.chatId = cid))⟩ : FS)
          cid uid = none := by
        apply getUserChat_none_of_not_owned
        intro c2 hc2 hid2
        have h3 : c2 ∈ fs.user_chats.filter
            (fun c => decide (¬ c.id = cid)) := hc2
        exact absurd hid2 (by simpa using List.of_mem_filter h3)
      unfold getUserMessages
      rw [hnone]

/-- Claim C9, witness at a concrete store. -/
theorem claim_C9_witness :
    deleteChat dbAlice "c1" "alice" =
      deleteChatRecord (deleteChatMessages dbAlice "c1") "c1" "alice" ∧
    (∀ m ∈ (deleteChatMessages dbAlice "c1").messages, ¬ m.chat_id = "c1") ∧
    getChat (deleteChatMessages dbAlice "c1") "c1" "alice" =
      some ⟨"c1", "alice", "T", 0, 0⟩ ∧
    (∀ m ∈ (deleteChat dbAlice "c1" "alice").messages, ¬ m.chat_id = "c1") ∧
    (∀ uid2, getChatMessages (deleteChat dbAlice "c1" "alice") "c1" uid2 = []) ∧
    (∀ (fs : FS) (ch : UserChat), getUserChat fs "c1" "alice" = some ch →
      ∃ fs2, deleteUserChat fs "c1" "alice" = Except.ok fs2 ∧
        (∀ m ∈ fs2.user_messages, ¬ m.chatId = "c1") ∧
        getUserMessages fs2 "c1" "alice" = Except.error notFoundMsg) :=
  claim_C9_delete_cascades dbAlice "c1" "alice" ⟨"c1", "alice", "T", 0, 0⟩
    (by decide)

/-! ## The persisted send-message endpoint (src/src/worker/index.ts, setup phase) -/

theorem getChat_updateChatTitle (db : DB) (cid uid title : String) (t : Nat)
    (c : Chat) (h : getChat db cid uid = some c) :
    getChat (updateChatTitle db cid uid title t) cid uid =
      some { c with title := title, updated_at := t } := by
  have hp := getChat_some_props db cid uid c h
  unfold getChat at h
  unfold getChat updateChatTitle
  rw [find?_map_pred _ _ _ (fun x => by
    by_cases hx : x.id = cid ∧ x.user_id = uid <;> simp [hx]), h]
  simp [hp.1, hp.2.1]

/-- Gemini role label for a stored message role. -/
def geminiRole (r : Role) : String :=
  match r with
  | Role.assistant => "model"
  | Role.user => "user"

/-- generateChatTitle on Lean strings. -/
def generateChatTitleStr (s : String) : String :=
  String.mk (generateChatTitle s.data)

/-- Outcome of the setup phase of POST /api/chats/:chatId/messages, up to
the point where the upstream model call would be issued. -/
inductive SendSetup where
  | notFound : SendSetup
  | setupError : SendSetup
  | apiKeyMissing : DB → SendSetup
  | streamStart : DB → List (String × String) → SendSetup
deriving DecidableEq

/-- Setup phase of the persisted send-message endpoint: ownership check via
getChat (404 when it fails), append of the user message (a thrown insert is
caught by the outer handler and returned as a 500 setup error), optional
automatic title when the current title is the placeholder, context fetch,
and only then the GEMINI_API_KEY presence check. -/
def sendMessagePersisted (db : DB) (uid cid message : String)
    (autoTitle : Bool) (apiKeyPresent : Bool) (msgId : String)
    (tMsg tTouch tTitle : Nat) : SendSetup :=
  match getChat db cid uid with
  | none => SendSetup.notFound
  | some chat =>
    match addMessage db cid Role.user message msgId tMsg tTouch with
    | Except.error _ => SendSetup.setupError
    | Except.ok x =>
      let db1 := x.2
      let db2 := if autoTitle ∧ chat.title = "New Chat"
        then updateChatTitle db1 cid uid (generateChatTitleStr message) tTitle
        else db1
      let ctx := (getChatMessages db2 cid uid).map
        (fun m => (geminiRole m.role, m.content))
      if apiKeyPresent then SendSetup.streamStart db2 ctx
      else SendSetup.apiKeyMissing db2

/-- Claim C10: with an owned chat and GEMINI_API_KEY absent, the endpoint
reports the configuration error only after the user message has been
appended and the chat updated_at touched — the store carried by the error
outcome contains the new user message and the refreshed timestamp, and
differs from the initial store. -/
theorem claim_C10_key_missing_after_append
    (db : DB) (uid cid message msgId : String) (autoTitle : Bool)
    (tMsg tTouch tTitle : Nat) (chat : Chat)
    (hc : getChat db cid uid = some chat) :
    ∃ db2,
      sendMessagePersisted db uid cid message autoTitle false msgId
          tMsg tTouch tTitle = SendSetup.apiKeyMissing db2 ∧
      (⟨msgId, cid, Role.user, message, tMsg⟩ : Message) ∈ db2.messages ∧
      ¬ db2 = db ∧
      ∃ c2, getChat db2 cid uid = some c2 ∧
        c2.updated_at =
          (if autoTitle ∧ chat.title = "New Chat" then tTitle else tTouch) := by
  have hp := getChat_some_props db cid uid chat hc
  have hex : ∃ x ∈ db.chats, x.id = cid := ⟨chat, hp.2.2, hp.1⟩
  have hadd := addMessage_ok db cid Role.user message msgId tMsg tTouch hex
  have hg1 : getChat (touchChat { db with messages := db.messages ++
        [⟨msgId, cid, Role.user, message, tMsg⟩] } cid tTouch) cid uid =
      some { chat with updated_at := tTouch } :=
    getChat_touchChat { db with messages := db.messages ++
      [⟨msgId, cid, Role.user, message, tMsg⟩] } cid uid tTouch chat hc
  refine ⟨if autoTitle ∧ chat.title = "New Chat"
      then updateChatTitle (touchChat { db with messages := db.messages ++
        [⟨msgId, cid, Role.user, message, tMsg⟩] } cid tTouch) cid uid
        (generateChatTitleStr message) tTitle
      else touchChat { db with messages := db.messages ++
        [⟨msgId, cid, Role.user, message, tMsg⟩] } cid tTouch,
    ?_, ?_, ?_, ?_⟩
  · unfold sendMessagePersisted
    rw [hc, hadd]
    rfl
  · by_cases hcond : autoTitle ∧ chat.title = "New Chat"
    · rw [if_pos hcond]
      show (⟨msgId, cid, Role.user, message, tMsg⟩ : Message) ∈
        db.messages ++ [⟨msgId, cid, Role.user, message, tMsg⟩]
      exact List.mem_append_right _ (List.mem_singleton.mpr rfl)
    · rw [if_neg hcond]
      show (⟨msgId, cid, Role.user, message, tMsg⟩ : Message) ∈
        db.messages ++ [⟨msgId, cid, Role.user, message, tMsg⟩]
      exact List.mem_append_right _ (List.mem_singleton.mpr rfl)
  · intro heq
    have hmsgs : (if autoTitle ∧ chat.title = "New Chat"
        then updateChatTitle (touchChat { db with messages := db.messages ++
          [⟨msgId, cid, Role.user, message, tMsg⟩] } cid tTouch) cid uid
          (generateChatTitleStr message) tTitle
        else touchChat { db with messages := db.messages ++
          [⟨msgId, cid, Role.user, message, tMsg⟩] } cid tTouch).messages
        = db.messages ++ [⟨msgId, cid, Role.user, message, tMsg⟩] := by
      by_cases hcond : autoTitle ∧ chat.title = "New Chat"
      · rw [if_pos hcond]; rfl
      · rw [if_neg hcond]; rfl
    have hlen := congrArg List.length (hmsgs.symm.trans
      (congrArg DB.messages heq))
    rw [List.length_append] at hlen
    simp at hlen
  · by_cases hcond : autoTitle ∧ chat.title = "New Chat"
    · refine ⟨{ { chat with updated_at := tTouch } with
          title := generateChatTitleStr message, updated_at := tTitle },
        ?_, ?_⟩
      · rw [if_pos hcond]
        exact getChat_updateChatTitle _ cid uid _ tTitle _ hg1
      · show tTitle = _
        rw [if_pos hcond]
    · refine ⟨{ chat with updated_at := tTouch }, ?_, ?_⟩
      · rw [if_neg hcond]
        exact hg1
      · show tTouch = _
        rw [if_neg hcond]

/-- Claim C10, witness at a concrete store. -/
theorem claim_C10_witness :
    ∃ db2,
      sendMessagePersisted dbAlice "alice" "c1" "hi" false false "m2" 2 3 4
        = SendSetup.apiKeyMissing db2 ∧
      (⟨"m2", "c1", Role.user, "hi", 2⟩ : Message) ∈ db2.messages ∧
      ¬ db2 = dbAlice ∧
      ∃ c2, getChat db2 "c1" "alice" = some c2 ∧
        c2.updated_at = (if False ∧
          (⟨"c1", "alice", "T", 0, 0⟩ : Chat).title = "New Chat"
          then 4 else 3) := by
  have h := claim_C10_key_missing_after_append dbAlice "alice" "c1" "hi" "m2"
    false 2 3 4 ⟨"c1", "alice", "T", 0, 0⟩ (by decide)
  simpa using h

/-! ## Streaming relay (src/src/worker/index.ts, stream body) and the
Firestore chat page client (sendMessageToAI). -/

/-- Events of the text/event-stream response body. -/
inductive SSEEvent where
  | content : List Char → SSEEvent
  | done : SSEEvent
  | errorEv : SSEEvent
deriving DecidableEq

/-- The mini-chunk slicing loop: for i in steps of 3, chunkText.slice(i, i+3). -/
def chunksOf3 : List Char → List (List Char)
  | [] => []
  | a :: t => ((a :: t).take 3) :: chunksOf3 (t.drop 2)
termination_by l => l.length
decreasing_by
  simp only [List.length_cons, List.length_drop]
  omega

theorem chunksOf3_flatten (l : List Char) : (chunksOf3 l).flatten = l := by
  have H : ∀ n (l : List Char), l.length = n → (chunksOf3 l).flatten = l := by
    intro n
    induction n using Nat.strong_induction_on with
    | _ n ih =>
      intro l hl
      cases l with
      | nil => rw [chunksOf3]; rfl
      | cons a t =>
        rw [chunksOf3, List.flatten_cons]
        have h2 := ih (t.drop 2).length
          (by rw [← hl]; simp only [List.length_cons, List.length_drop]; omega)
          (t.drop 2) rfl
        rw [h2, List.take_succ_cons, List.cons_append, List.take_append_drop]
  exact H l.length l rfl

/-- One upstream chunk processed by the relay loop: skipped when empty,
otherwise forwarded as mini-chunk content events and appended to the
accumulator. -/
def relayStep (acc : List SSEEvent × List Char) (chunk : List Char) :
    List SSEEvent × List Char :=
  if chunk = [] then acc
  else (acc.1 ++ (chunksOf3 chunk).map SSEEvent.content, acc.2 ++ chunk)

/-- The relay loop over the list of upstream chunk texts. -/
def relayRun (chunks : List (List Char)) : List SSEEvent × List Char :=
  chunks.foldl relayStep ([], [])

/-- Upstream outcome: all chunks delivered then a clean end, or the chunks
delivered so far followed by a thrown error. -/
inductive Upstream where
  | success : List (List Char) → Upstream
  | failure : List (List Char) → Upstream

/-- The streaming relay of the persisted endpoint: forward paced content
events while accumulating; on clean upstream end, persist the accumulated
text as an assistant message when (and only when) it is nonempty — a thrown
save is caught and surfaced as an in-band error event — then emit done; on
an upstream error, emit a single error event and close, leaving the store
untouched. -/
def streamAndPersist (db : DB) (cid : String) (u : Upstream) (msgId : String)
    (tMsg tTouch : Nat) : List SSEEvent × DB :=
  match u with
  | Upstream.success chunks =>
    let r := relayRun chunks
    if r.2 = [] then (r.1 ++ [SSEEvent.done], db)
    else
      match addMessage db cid Role.assistant (String.mk r.2) msgId
          tMsg tTouch with
      | Except.ok x => (r.1 ++ [SSEEvent.done], x.2)
      | Except.error _ => (r.1 ++ [SSEEvent.errorEv], db)
  | Upstream.failure chunks =>
    let r := relayRun chunks
    (r.1 ++ [SSEEvent.errorEv], db)

/-- The content payloads carried by a list of events. -/
def contentsOf : List SSEEvent → List (List Char)
  | [] => []
  | SSEEvent.content s :: t => s :: contentsOf t
  | SSEEvent.done :: t => contentsOf t
  | SSEEvent.errorEv :: t => contentsOf t

theorem contentsOf_append (a b : List SSEEvent) :
    contentsOf (a ++ b) = contentsOf a ++ contentsOf b := by
  induction a with
  | nil => rfl
  | cons e t ih =>
    cases e with
    | content s => rw [List.cons_append, contentsOf, contentsOf, ih,
        List.cons_append]
    | done => rw [List.cons_append, contentsOf, contentsOf, ih]
    | errorEv => rw [List.cons_append, contentsOf, contentsOf, ih]

theorem contentsOf_map_content (xs : List (List Char)) :
    contentsOf (xs.map SSEEvent.content) = xs := by
  induction xs with
  | nil => rfl
  | cons x t ih => rw [List.map_cons, contentsOf, ih]

theorem relayFold_spec (chunks : List (List Char)) (evs : List SSEEvent)
    (acc : List Char) (h : (contentsOf evs).flatten = acc) :
    (contentsOf (chunks.foldl relayStep (evs, acc)).1).flatten =
      (chunks.foldl relayStep (evs, acc)).2 ∧
    (chunks.foldl relayStep (evs, acc)).2 = acc ++ chunks.flatten := by
  induction chunks generalizing evs acc with
  | nil =>
    refine ⟨h, ?_⟩
    rw [List.flatten_nil, List.append_nil]
    rfl
  | cons c rest ih =>
    rw [List.foldl_cons]
    by_cases hc : c = []
    · subst hc
      rw [show relayStep (evs, acc) [] = (evs, acc) from rfl]
      have h3 := ih evs acc h
      refine ⟨h3.1, ?_⟩
      rw [h3.2, List.flatten_cons, List.nil_append]
    · rw [show relayStep (evs, acc) c =
        (evs ++ (chunksOf3 c).map SSEEvent.content, acc ++ c) from by
          unfold relayStep; rw [if_neg hc]]
      have h2 : (contentsOf (evs ++ (chunksOf3 c).map SSEEvent.content)).flatten =
          acc ++ c := by
        rw [contentsOf_append, contentsOf_map_content, List.flatten_append, h,
          chunksOf3_flatten]
      have h3 := ih _ _ h2
      refine ⟨h3.1, ?_⟩
      rw [h3.2, List.flatten_cons, List.append_assoc]

theorem relayFold_all_content (chunks : List (List Char)) (evs : List SSEEvent)
    (acc : List Char) (h : ∀ e ∈ evs, ∃ s, e = SSEEvent.content s) :
    ∀ e ∈ (chunks.foldl relayStep (evs, acc)).1, ∃ s, e = SSEEvent.content s := by
  induction chunks generalizing evs acc with
  | nil => exact h
  | cons c rest ih =>
    rw [List.foldl_cons]
    by_cases hc : c = []
    · subst hc
      rw [show relayStep (evs, acc) [] = (evs, acc) from rfl]
      exact ih evs acc h
    · rw [show relayStep (evs, acc) c =
        (evs ++ (chunksOf3 c).map SSEEvent.content, acc ++ c) from by
          unfold relayStep; rw [if_neg hc]]
      apply ih
      intro e he
      rcases List.mem_append.mp he with h2 | h2
      · exact h e h2
      · obtain ⟨s, _, rfl⟩ := List.mem_map.mp h2
        exact ⟨s, rfl⟩

theorem relayRun_spec (chunks : List (List Char)) :
    (contentsOf (relayRun chunks).1).flatten = (relayRun chunks).2 ∧
    (relayRun chunks).2 = chunks.flatten := by
  have h := relayFold_spec chunks [] [] rfl
  exact ⟨h.1, by unfold relayRun; rw [h.2, List.nil_append]⟩

theorem relayRun_all_content (chunks : List (List Char)) :
    ∀ e ∈ (relayRun chunks).1, ∃ s, e = SSEEvent.content s :=
  relayFold_all_content chunks [] []
    (fun e he => absurd he (List.not_mem_nil e))

/-- Claim C1, counterexample: a successful upstream stream with no content
chunks emits done but persists no assistant message at all — not exactly
one. -/
theorem claim_C1_counterexample :
    streamAndPersist dbAlice "c1" (Upstream.success []) "m9" 7 8 =
      ([SSEEvent.done], dbAlice) ∧
    (dbAlice.messages.filter
      (fun m => decide (m.role = Role.assistant))).length = 0 := by
  constructor
  · rfl
  · rfl

/-- Claim C1 (amended): on a successful upstream stream whose chunks carry at
least one character in total (and a chat satisfying the insert constraint,
as the endpoint guarantees), exactly one assistant message is appended, and
its content equals the concatenation of the forwarded content fragments,
which equals the concatenation of the upstream chunks; a successful stream
with no text persists nothing. -/
theorem claim_C1_success_persists_concat
    (db : DB) (cid msgId : String) (tMsg tTouch : Nat)
    (chunks : List (List Char)) (hne : ¬ chunks.flatten = [])
    (hfk : ∃ c ∈ db.chats, c.id = cid) :
    ∃ evs : List SSEEvent,
      streamAndPersist db cid (Upstream.success chunks) msgId tMsg tTouch =
        (evs ++ [SSEEvent.done],
          touchChat { db with messages := db.messages ++
            [⟨msgId, cid, Role.assistant,
              String.mk ((contentsOf evs).flatten), tMsg⟩] } cid tTouch) ∧
      (contentsOf evs).flatten = chunks.flatten ∧
      ((streamAndPersist db cid (Upstream.success chunks) msgId tMsg
          tTouch).2).messages = db.messages ++
        [⟨msgId, cid, Role.assistant, String.mk chunks.flatten, tMsg⟩] := by
  obtain ⟨h1, h2⟩ := relayRun_spec chunks
  have hacc : ¬ (relayRun chunks).2 = [] := by rw [h2]; exact hne
  have hadd := addMessage_ok db cid Role.assistant
    (String.mk (relayRun chunks).2) msgId tMsg tTouch hfk
  refine ⟨(relayRun chunks).1, ?_, ?_, ?_⟩
  · unfold streamAndPersist
    simp only
    rw [if_neg hacc, hadd, h1]
  · rw [h1, h2]
  · unfold streamAndPersist
    simp only
    rw [if_neg hacc, hadd]
    show (touchChat { db with messages := db.messages ++
      [⟨msgId, cid, Role.assistant, String.mk (relayRun chunks).2, tMsg⟩] }
      cid tTouch).messages = _
    rw [h2]
    rfl

/-- Claim C1, witness of the amended theorem at a concrete stream. -/
theorem claim_C1_witness :
    ∃ evs : List SSEEvent,
      streamAndPersist dbAlice "c1"
          (Upstream.success [['h', 'e', 'l', 'l', 'o']]) "m9" 7 8 =
        (evs ++ [SSEEvent.done],
          touchChat { dbAlice with messages := dbAlice.messages ++
            [⟨"m9", "c1", Role.assistant,
              String.mk ((contentsOf evs).flatten), 7⟩] } "c1" 8) ∧
      (contentsOf evs).flatten = [['h', 'e', 'l', 'l', 'o']].flatten ∧
      ((streamAndPersist dbAlice "c1"
          (Upstream.success [['h', 'e', 'l', 'l', 'o']]) "m9" 7 8).2).messages =
        dbAlice.messages ++ [⟨"m9", "c1", Role.assistant,
          String.mk [['h', 'e', 'l', 'l', 'o']].flatten, 7⟩] :=
  claim_C1_success_persists_concat dbAlice "c1" "m9" 7 8
    [['h', 'e', 'l', 'l', 'o']] (by decide) (by decide)

/-- The SSE consumption loop of sendMessageToAI on the Firestore chat page:
content events accumulate; a done event saves the accumulated text as the
assistant message (a failing save is swallowed by its own catch); an in-band
error event makes the handler throw inside the per-line parse try, whose
catch only logs a warning, so processing continues past it and nothing is
saved for it; a stream that ends without a done event saves nothing — the
outer catch that composes an error-notice message is reachable only from
transport failures, not from stream events. -/
def clientConsume (fs : FS) (cid uid msgId : String) (t : Nat) :
    List SSEEvent → List Char → FS
  | [], _ => fs
  | SSEEvent.done :: _, acc =>
    match addUserMessage fs cid uid Role.assistant (String.mk acc) msgId t with
    | Except.ok r => r.2
    | Except.error _ => fs
  | SSEEvent.errorEv :: rest, acc => clientConsume fs cid uid msgId t rest acc
  | SSEEvent.content s :: rest, acc =>
    clientConsume fs cid uid msgId t rest (acc ++ s)

/-- The stream handling of sendMessageToAI, from the fetch response on. -/
def sendMessageToAI (fs : FS) (cid uid : String) (events : List SSEEvent)
    (msgId : String) (t : Nat) : FS :=
  clientConsume fs cid uid msgId t events []

theorem clientConsume_content_skip (fs : FS) (cid uid msgId : String)
    (t : Nat) (evs : List SSEEvent)
    (h : ∀ e ∈ evs, ∃ s, e = SSEEvent.content s)
    (rest : List SSEEvent) (acc : List Char) :
    clientConsume fs cid uid msgId t (evs ++ rest) acc =
      clientConsume fs cid uid msgId t rest
        (acc ++ (contentsOf evs).flatten) := by
  revert h
  induction evs generalizing acc with
  | nil =>
    intro h
    rw [List.nil_append, contentsOf, List.flatten_nil, List.append_nil]
  | cons e t2 ih =>
    intro h
    obtain ⟨s, rfl⟩ := h e (List.mem_cons_self e t2)
    rw [List.cons_append]
    show clientConsume fs cid uid msgId t (t2 ++ rest) (acc ++ s) = _
    rw [ih (acc ++ s) (fun x hx => h x (List.mem_cons_of_mem _ hx))]
    rw [contentsOf, List.flatten_cons, List.append_assoc]

/-- Claim C2: on a mid-way upstream failure the worker relay emits the
already-forwarded content events followed by exactly one in-band error
event, closes the stream (nothing follows the error event) without any
retry, and persists zero assistant messages — the store is unchanged and
the partial accumulated text is discarded; the Firestore chat page
consuming such a stream also persists nothing, since its per-line catch
swallows the in-band error and the stream then ends without a done event. -/
theorem claim_C2_failure_single_error_no_persist
    (db : DB) (fs : FS) (cid uid msgId : String) (tMsg tTouch t : Nat)
    (chunks : List (List Char)) :
    (streamAndPersist db cid (Upstream.failure chunks) msgId tMsg tTouch).2
      = db ∧
    (streamAndPersist db cid (Upstream.failure chunks) msgId tMsg tTouch).1
      = (relayRun chunks).1 ++ [SSEEvent.errorEv] ∧
    ((streamAndPersist db cid (Upstream.failure chunks) msgId tMsg
        tTouch).1.filter (fun e => decide (e = SSEEvent.errorEv)))
      = [SSEEvent.errorEv] ∧
    sendMessageToAI fs cid uid
      ((relayRun chunks).1 ++ [SSEEvent.errorEv]) msgId t = fs := by
  have hall := relayRun_all_content chunks
  refine ⟨rfl, rfl, ?_, ?_⟩
  · show ((relayRun chunks).1 ++ [SSEEvent.errorEv]).filter
      (fun e => decide (e = SSEEvent.errorEv)) = [SSEEvent.errorEv]
    rw [List.filter_append]
    have hnil : (relayRun chunks).1.filter
        (fun e => decide (e = SSEEvent.errorEv)) = [] := by
      rw [List.filter_eq_nil_iff]
      intro e he
      obtain ⟨s, rfl⟩ := hall e he
      simp
    rw [hnil, List.nil_append]
    rfl
  · unfold sendMessageToAI
    rw [clientConsume_content_skip fs cid uid msgId t (relayRun chunks).1
      hall [SSEEvent.errorEv] []]
    rfl
